import Mathlib

/-!
Verification of the text-processing core of the `perl-mygram-client`
repository: the UTF-8 codec and n-gram engine (`src/string_utils.cpp`)
and the web-style search-expression parser and query-string emitter
(`src/search_expression.cpp`).

Byte strings are modelled as `List Nat` (each element a byte value
0..255, as produced by the C++ `unsigned char` casts); codepoint
sequences as `List Nat`.  C++ bit masking on bytes/codepoints is
translated to the equivalent `%`, `/`, `*`, `+` arithmetic on `Nat`
(e.g. `b & 0x3F` is `b % 64`, `b >> 6` is `b / 64`, `x << 6 | y` with
`y < 64` is `x * 64 + y`); where a `size_t` computation can wrap, the
wrap is kept explicit as `% 2^64`.
-/

namespace MygramClient

/-! ### Utf8Codec — `src/string_utils.cpp` lines 76-156 -/

/-- `Utf8CharLength` (string_utils.cpp:76-90): expected sequence length
from the first byte.  `(b & 0x80) == 0` is `b < 0x80`;
`(b & 0xE0) == 0xC0` is `0xC0 ≤ b < 0xE0`; `(b & 0xF0) == 0xE0` is
`0xE0 ≤ b < 0xF0`; `(b & 0xF8) == 0xF0` is `0xF0 ≤ b < 0xF8`
(for byte values `b < 256`).  Anything else is treated as length 1. -/
def utf8CharLength (b : Nat) : Nat :=
  if b < 0x80 then 1
  else if 0xC0 ≤ b ∧ b < 0xE0 then 2
  else if 0xE0 ≤ b ∧ b < 0xF0 then 3
  else if 0xF0 ≤ b ∧ b < 0xF8 then 4
  else 1

/-- `Utf8ToCodepoints` (string_utils.cpp:94-131).  Scans left to right;
the leading byte determines the length; if the declared length runs past
the end of the input the byte is skipped (`++i; continue;`); otherwise
the codepoint is assembled from the data bits (`b0 & 0x1F` = `b0 % 32`,
`b0 & 0x0F` = `b0 % 16`, `b0 & 0x07` = `b0 % 8`, continuation
`b & 0x3F` = `b % 64`, shifts 6/12/18 = factors 64/4096/262144; the
OR-ed fields are disjoint, so `|||` is `+`). -/
def Utf8ToCodepoints : List Nat → List Nat
  | [] => []
  | b :: rest =>
    let len := utf8CharLength b
    -- `i + char_len > text.size()` is `rest.length + 1 < len`
    if rest.length + 1 < len then Utf8ToCodepoints rest
    else if len = 2 then
      ((b % 32) * 64 + (rest.getD 0 0) % 64) :: Utf8ToCodepoints (rest.drop 1)
    else if len = 3 then
      ((b % 16) * 4096 + ((rest.getD 0 0) % 64) * 64 + (rest.getD 1 0) % 64) ::
        Utf8ToCodepoints (rest.drop 2)
    else if len = 4 then
      ((b % 8) * 262144 + ((rest.getD 0 0) % 64) * 4096 +
          ((rest.getD 1 0) % 64) * 64 + (rest.getD 2 0) % 64) ::
        Utf8ToCodepoints (rest.drop 3)
    else b :: Utf8ToCodepoints rest
termination_by l => l.length
decreasing_by all_goals (simp only [List.length_drop, List.length_cons]; omega)

/-- One codepoint of `CodepointsToUtf8` (string_utils.cpp:137-152): the
standard four length classes; `0xC0 | (cp >> 6)` = `0xC0 + cp / 64`,
`0x80 | (cp & 0x3F)` = `0x80 + cp % 64`, etc. (all OR-ed fields are
disjoint in the guarded ranges).  Codepoints above 0x10FFFF produce no
output. -/
def encodeCodepoint (cp : Nat) : List Nat :=
  if cp ≤ 0x7F then [cp]
  else if cp ≤ 0x7FF then [0xC0 + cp / 64, 0x80 + cp % 64]
  else if cp ≤ 0xFFFF then
    [0xE0 + cp / 4096, 0x80 + (cp / 64) % 64, 0x80 + cp % 64]
  else if cp ≤ 0x10FFFF then
    [0xF0 + cp / 262144, 0x80 + (cp / 4096) % 64, 0x80 + (cp / 64) % 64,
     0x80 + cp % 64]
  else []

/-- `CodepointsToUtf8` (string_utils.cpp:133-156): concatenation of the
per-codepoint encodings. -/
def CodepointsToUtf8 (codepoints : List Nat) : List Nat :=
  codepoints.flatMap encodeCodepoint

/-! Step lemmas for the decoder, one per length class. -/

theorem utf8CharLength_one {b : Nat} (h : b < 0x80) : utf8CharLength b = 1 := by
  simp only [utf8CharLength]; rw [if_pos h]

theorem utf8CharLength_two {b : Nat} (h₁ : 0xC0 ≤ b) (h₂ : b < 0xE0) :
    utf8CharLength b = 2 := by
  simp only [utf8CharLength]
  rw [if_neg (by omega), if_pos (by omega)]

theorem utf8CharLength_three {b : Nat} (h₁ : 0xE0 ≤ b) (h₂ : b < 0xF0) :
    utf8CharLength b = 3 := by
  simp only [utf8CharLength]
  rw [if_neg (by omega), if_neg (by omega), if_pos (by omega)]

theorem utf8CharLength_four {b : Nat} (h₁ : 0xF0 ≤ b) (h₂ : b < 0xF8) :
    utf8CharLength b = 4 := by
  simp only [utf8CharLength]
  rw [if_neg (by omega), if_neg (by omega), if_neg (by omega), if_pos (by omega)]

theorem decode_cons_one {b : Nat} (h : b < 0x80) (s : List Nat) :
    Utf8ToCodepoints (b :: s) = b :: Utf8ToCodepoints s := by
  rw [Utf8ToCodepoints]
  simp [utf8CharLength_one h]

theorem decode_cons_two {b0 b1 : Nat} (h₁ : 0xC0 ≤ b0) (h₂ : b0 < 0xE0)
    (s : List Nat) :
    Utf8ToCodepoints (b0 :: b1 :: s) =
      ((b0 % 32) * 64 + b1 % 64) :: Utf8ToCodepoints s := by
  rw [Utf8ToCodepoints]
  simp [utf8CharLength_two h₁ h₂]

theorem decode_cons_three {b0 b1 b2 : Nat} (h₁ : 0xE0 ≤ b0) (h₂ : b0 < 0xF0)
    (s : List Nat) :
    Utf8ToCodepoints (b0 :: b1 :: b2 :: s) =
      ((b0 % 16) * 4096 + (b1 % 64) * 64 + b2 % 64) :: Utf8ToCodepoints s := by
  rw [Utf8ToCodepoints]
  simp [utf8CharLength_three h₁ h₂]

theorem decode_cons_four {b0 b1 b2 b3 : Nat} (h₁ : 0xF0 ≤ b0) (h₂ : b0 < 0xF8)
    (s : List Nat) :
    Utf8ToCodepoints (b0 :: b1 :: b2 :: b3 :: s) =
      ((b0 % 8) * 262144 + (b1 % 64) * 4096 + (b2 % 64) * 64 + b3 % 64) ::
        Utf8ToCodepoints s := by
  rw [Utf8ToCodepoints]
  simp [utf8CharLength_four h₁ h₂]

/-- `CodepointsToUtf8` distributes over `::`. -/
theorem codepointsToUtf8_cons (c : Nat) (l : List Nat) :
    CodepointsToUtf8 (c :: l) = encodeCodepoint c ++ CodepointsToUtf8 l := by
  simp [CodepointsToUtf8]

/-- Well-formed UTF-8 byte strings (RFC 3629): no overlong encodings, no
surrogate codepoints, maximum U+10FFFF, continuation bytes `0x80..0xBF`. -/
inductive WellFormedUtf8 : List Nat → Prop
  | nil : WellFormedUtf8 []
  | one {b : Nat} {s : List Nat} :
      b < 0x80 → WellFormedUtf8 s → WellFormedUtf8 (b :: s)
  | two {b0 b1 : Nat} {s : List Nat} :
      0xC2 ≤ b0 → b0 ≤ 0xDF → 0x80 ≤ b1 → b1 ≤ 0xBF →
      WellFormedUtf8 s → WellFormedUtf8 (b0 :: b1 :: s)
  | three {b0 b1 b2 : Nat} {s : List Nat} :
      0xE0 ≤ b0 → b0 ≤ 0xEF → 0x80 ≤ b1 → b1 ≤ 0xBF → 0x80 ≤ b2 → b2 ≤ 0xBF →
      (b0 = 0xE0 → 0xA0 ≤ b1) → (b0 = 0xED → b1 ≤ 0x9F) →
      WellFormedUtf8 s → WellFormedUtf8 (b0 :: b1 :: b2 :: s)
  | four {b0 b1 b2 b3 : Nat} {s : List Nat} :
      0xF0 ≤ b0 → b0 ≤ 0xF4 → 0x80 ≤ b1 → b1 ≤ 0xBF → 0x80 ≤ b2 → b2 ≤ 0xBF →
      0x80 ≤ b3 → b3 ≤ 0xBF →
      (b0 = 0xF0 → 0x90 ≤ b1) → (b0 = 0xF4 → b1 ≤ 0x8F) →
      WellFormedUtf8 s → WellFormedUtf8 (b0 :: b1 :: b2 :: b3 :: s)

/-- **C1.** For every well-formed UTF-8 byte string `s`,
`CodepointsToUtf8 (Utf8ToCodepoints s) = s`: decoding to Unicode scalar
values and re-encoding yields a byte-identical string. -/
theorem utf8_roundtrip (s : List Nat) (h : WellFormedUtf8 s) :
    CodepointsToUtf8 (Utf8ToCodepoints s) = s := by
  induction h with
  | nil => simp [Utf8ToCodepoints, CodepointsToUtf8]
  | one hb _ ih =>
    rw [decode_cons_one hb, codepointsToUtf8_cons, ih]
    simp only [encodeCodepoint]
    rw [if_pos (by omega)]
    simp
  | two h1 h2 h3 h4 _ ih =>
    rw [decode_cons_two (by omega) (by omega), codepointsToUtf8_cons, ih]
    simp only [encodeCodepoint]
    rw [if_neg (by omega), if_pos (by omega)]
    simp only [List.cons_append, List.nil_append, List.cons.injEq, and_true]
    omega
  | three h1 h2 h3 h4 h5 h6 h7 h8 _ ih =>
    rename_i b0 b1 b2 s hwf
    have hge : 2048 ≤ (b0 % 16) * 4096 + (b1 % 64) * 64 + b2 % 64 := by
      by_cases hb : b0 = 0xE0
      · have := h7 hb; omega
      · omega
    rw [decode_cons_three (by omega) (by omega), codepointsToUtf8_cons, ih]
    simp only [encodeCodepoint]
    rw [if_neg (by omega), if_neg (by omega), if_pos (by omega)]
    simp only [List.cons_append, List.nil_append, List.cons.injEq, and_true]
    omega
  | four h1 h2 h3 h4 h5 h6 h7 h8 h9 h10 _ ih =>
    rename_i b0 b1 b2 b3 s hwf
    have hge :
        65536 ≤ (b0 % 8) * 262144 + (b1 % 64) * 4096 + (b2 % 64) * 64 + b3 % 64 := by
      by_cases hb : b0 = 0xF0
      · have := h9 hb; omega
      · omega
    have hle :
        (b0 % 8) * 262144 + (b1 % 64) * 4096 + (b2 % 64) * 64 + b3 % 64 ≤ 0x10FFFF := by
      by_cases hb : b0 = 0xF4
      · have := h10 hb; omega
      · omega
    rw [decode_cons_four (by omega) (by omega), codepointsToUtf8_cons, ih]
    simp only [encodeCodepoint]
    rw [if_neg (by omega), if_neg (by omega), if_neg (by omega), if_pos (by omega)]
    simp only [List.cons_append, List.nil_append, List.cons.injEq, and_true]
    omega

/-- Witness for `utf8_roundtrip`: the concrete well-formed string
"hあ" = `[0x68, 0xE3, 0x81, 0x82]` round-trips. -/
theorem utf8_roundtrip_witness :
    WellFormedUtf8 [0x68, 0xE3, 0x81, 0x82] ∧
      CodepointsToUtf8 (Utf8ToCodepoints [0x68, 0xE3, 0x81, 0x82]) =
        [0x68, 0xE3, 0x81, 0x82] := by
  have hw : WellFormedUtf8 [0x68, 0xE3, 0x81, 0x82] :=
    .one (by omega)
      (.three (by omega) (by omega) (by omega) (by omega) (by omega) (by omega)
        (by omega) (by omega) .nil)
  exact ⟨hw, utf8_roundtrip _ hw⟩

/-- Decoding the encoding of a single codepoint, in front of any
continuation of the byte string. -/
theorem decode_encodeCodepoint (c : Nat) (s : List Nat) :
    Utf8ToCodepoints (encodeCodepoint c ++ s) =
      if c ≤ 0x10FFFF then c :: Utf8ToCodepoints s else Utf8ToCodepoints s := by
  by_cases h1 : c ≤ 0x7F
  · simp only [encodeCodepoint, if_pos h1, List.cons_append, List.nil_append]
    rw [decode_cons_one (by omega), if_pos (by omega)]
  · by_cases h2 : c ≤ 0x7FF
    · simp only [encodeCodepoint, if_neg h1, if_pos h2, List.cons_append,
        List.nil_append]
      rw [decode_cons_two (by omega) (by omega), if_pos (by omega)]
      congr 1
      omega
    · by_cases h3 : c ≤ 0xFFFF
      · simp only [encodeCodepoint, if_neg h1, if_neg h2, if_pos h3,
          List.cons_append, List.nil_append]
        rw [decode_cons_three (by omega) (by omega), if_pos (by omega)]
        congr 1
        omega
      · by_cases h4 : c ≤ 0x10FFFF
        · simp only [encodeCodepoint, if_neg h1, if_neg h2, if_neg h3, if_pos h4,
            List.cons_append, List.nil_append]
          rw [decode_cons_four (by omega) (by omega)]
          congr 1
          omega
        · simp only [encodeCodepoint, if_neg h1, if_neg h2, if_neg h3, if_neg h4,
            List.nil_append]

/-- **C9.** Decoding the encoding of an arbitrary codepoint list keeps
exactly the codepoints `≤ 0x10FFFF` (the encoder silently drops the
rest); in particular the round-trip is the identity when all codepoints
are `≤ 0x10FFFF`. -/
theorem encode_decode_roundtrip (cps : List Nat) :
    Utf8ToCodepoints (CodepointsToUtf8 cps) =
        cps.filter (fun c => c ≤ 0x10FFFF) ∧
      ((∀ c ∈ cps, c ≤ 0x10FFFF) →
        Utf8ToCodepoints (CodepointsToUtf8 cps) = cps) := by
  have hfilter : Utf8ToCodepoints (CodepointsToUtf8 cps) =
      cps.filter (fun c => c ≤ 0x10FFFF) := by
    induction cps with
    | nil => simp [CodepointsToUtf8, Utf8ToCodepoints]
    | cons c l ih =>
      rw [codepointsToUtf8_cons, decode_encodeCodepoint, List.filter_cons]
      by_cases h : c ≤ 0x10FFFF
      · simp [h, ih]
      · simp [h, ih]
  refine ⟨hfilter, fun hall => ?_⟩
  rw [hfilter, List.filter_eq_self]
  intro c hc
  simpa using hall c hc

/-- Witness for `encode_decode_roundtrip`: concrete all-valid list. -/
theorem encode_decode_roundtrip_witness :
    (∀ c ∈ [0x48, 0x3042, 0x10000], c ≤ 0x10FFFF) ∧
      Utf8ToCodepoints (CodepointsToUtf8 [0x48, 0x3042, 0x10000]) =
        [0x48, 0x3042, 0x10000] :=
  ⟨by decide, (encode_decode_roundtrip [0x48, 0x3042, 0x10000]).2 (by decide)⟩

/-! ### NgramEngine — `src/string_utils.cpp` lines 222-344 -/

/-- `GenerateNgrams` (string_utils.cpp:222-254).  `n` is a C++ `int`,
modelled as `Int`; `static_cast<size_t>(n)` in the `codepoints.size() <
n` comparison is `n.toNat` (that branch is only reached for `n ≥ 2`).
The window loop `for (i = 0; i <= size - n; ++i)` producing
`codepoints[i..i+n)` is `(List.range (size - n + 1)).map` of
`(drop i).take n`. -/
def GenerateNgrams (text : List Nat) (n : Int) : List (List Nat) :=
  let codepoints := Utf8ToCodepoints text
  if codepoints = [] ∨ n ≤ 0 then []
  else if n = 1 then codepoints.map (fun c => CodepointsToUtf8 [c])
  else if codepoints.length < n.toNat then []
  else
    (List.range (codepoints.length - n.toNat + 1)).map
      (fun i => CodepointsToUtf8 ((codepoints.drop i).take n.toNat))

/-- `IsCJKIdeograph` (string_utils.cpp:272-279): the six fixed CJK
ideograph ranges (Main, Ext-A, Ext-B, Ext-C, Ext-D, Compatibility);
Hiragana (3040-309F) and Katakana (30A0-30FF) are not included. -/
def IsCJKIdeograph (cp : Nat) : Bool :=
  decide ((0x4E00 ≤ cp ∧ cp ≤ 0x9FFF) ∨ (0x3400 ≤ cp ∧ cp ≤ 0x4DBF) ∨
    (0x20000 ≤ cp ∧ cp ≤ 0x2A6DF) ∨ (0x2A700 ≤ cp ∧ cp ≤ 0x2B73F) ∨
    (0x2B740 ≤ cp ∧ cp ≤ 0x2B81F) ∨ (0xF900 ≤ cp ∧ cp ≤ 0xFAFF))

/-- The C++ `int` window size converted to `size_t`, two's complement:
`(n % 2^64).toNat` (Lean's `Int.emod` is non-negative for a positive
modulus). -/
def toUSize (n : Int) : Nat := (n % (2 ^ 64 : Int)).toNat

/-- `GenerateHybridNgrams` (string_utils.cpp:283-344).  For each
position `i`: classify `codepoints[i]`; the in-bounds test
`i + size <= codepoints.size()` is `size_t` arithmetic, hence the
explicit `% 2^64`; the `for (j = 0; j < size; ++j)` loops (the all-CJK /
all-non-CJK check and the window copy) run over
`(codepoints.drop i).take size.toNat` — for `size ≤ 0` they run zero
times, so the check passes vacuously and the empty string is emitted. -/
def GenerateHybridNgrams (text : List Nat) (ascii_n kanji_n : Int) :
    List (List Nat) :=
  let codepoints := Utf8ToCodepoints text
  if codepoints = [] then []
  else
    (List.range codepoints.length).flatMap (fun i =>
      if IsCJKIdeograph (codepoints.getD i 0) then
        if (i + toUSize kanji_n) % 2 ^ 64 ≤ codepoints.length then
          let w := (codepoints.drop i).take kanji_n.toNat
          if w.all (fun c => IsCJKIdeograph c) then [CodepointsToUtf8 w] else []
        else []
      else
        if (i + toUSize ascii_n) % 2 ^ 64 ≤ codepoints.length then
          let w := (codepoints.drop i).take ascii_n.toNat
          if w.all (fun c => !IsCJKIdeograph c) then [CodepointsToUtf8 w] else []
        else [])

/-- ASCII-only byte strings decode to themselves. -/
theorem decode_ascii (l : List Nat) (h : ∀ b ∈ l, b < 0x80) :
    Utf8ToCodepoints l = l := by
  induction l with
  | nil => simp [Utf8ToCodepoints]
  | cons b t ih =>
    rw [decode_cons_one (h b (by simp)), ih (fun x hx => h x (by simp [hx]))]

/-- ASCII-only codepoint lists encode to themselves. -/
theorem encode_ascii (l : List Nat) (h : ∀ b ∈ l, b < 0x80) :
    CodepointsToUtf8 l = l := by
  induction l with
  | nil => simp [CodepointsToUtf8]
  | cons b t ih =>
    rw [codepointsToUtf8_cons, ih (fun x hx => h x (by simp [hx]))]
    simp only [encodeCodepoint]
    rw [if_pos (by have := h b (by simp); omega)]
    simp

/-- The unigram map is the same as the general sliding-window formula
with window size 1. -/
theorem range_map_take_one (l : List Nat) :
    (List.range l.length).map
        (fun i => CodepointsToUtf8 ((l.drop i).take 1)) =
      l.map (fun c => CodepointsToUtf8 [c]) := by
  induction l with
  | nil => simp
  | cons c t ih =>
    rw [List.length_cons, List.range_succ_eq_map]
    simp only [List.map_cons, List.map_map, List.drop_zero, Function.comp_def,
      Nat.succ_eq_add_one, List.drop_succ_cons, List.take_succ_cons,
      List.take_zero]
    rw [ih]

/-- **C7.** `GenerateNgrams text n` is empty iff `n ≤ 0` or fewer than
`n` codepoints were decoded; otherwise it is the
`codepoints.length - n + 1` sliding windows `codepoints[i..i+n)`
rendered back to UTF-8, in order (`n = 1` gives one n-gram per
codepoint); and `GenerateNgrams "hello" 2 = ["he","el","ll","lo"]`. -/
theorem generateNgrams_spec (text : List Nat) (n : Int) :
    (GenerateNgrams text n =
      if n ≤ 0 ∨ ((Utf8ToCodepoints text).length : Int) < n then []
      else
        (List.range ((Utf8ToCodepoints text).length - n.toNat + 1)).map
          (fun i =>
            CodepointsToUtf8 (((Utf8ToCodepoints text).drop i).take n.toNat)))
    ∧ GenerateNgrams [104, 101, 108, 108, 111] 2 =
        [[104, 101], [101, 108], [108, 108], [108, 111]] := by
  constructor
  · simp only [GenerateNgrams]
    by_cases c1 : Utf8ToCodepoints text = [] ∨ n ≤ 0
    · have hc4 : n ≤ 0 ∨ ((Utf8ToCodepoints text).length : Int) < n := by
        rcases c1 with hc | hc
        · rw [hc]; simp; omega
        · exact Or.inl hc
      rw [if_pos c1, if_pos hc4]
    · have hne : Utf8ToCodepoints text ≠ [] := (not_or.mp c1).1
      have hpos : ¬ n ≤ 0 := (not_or.mp c1).2
      have hlen : 0 < (Utf8ToCodepoints text).length := List.length_pos.mpr hne
      rw [if_neg c1]
      by_cases c2 : n = 1
      · subst c2
        rw [if_pos rfl,
          if_neg (show ¬((1:Int) ≤ 0 ∨ ((Utf8ToCodepoints text).length : Int) < 1)
            by omega),
          show Int.toNat 1 = 1 from rfl,
          show (Utf8ToCodepoints text).length - 1 + 1 =
            (Utf8ToCodepoints text).length by omega,
          range_map_take_one]
      · rw [if_neg c2]
        have hc4iff : (n ≤ 0 ∨ ((Utf8ToCodepoints text).length : Int) < n) ↔
            (Utf8ToCodepoints text).length < n.toNat := by omega
        by_cases c3 : (Utf8ToCodepoints text).length < n.toNat
        · rw [if_pos c3, if_pos (hc4iff.mpr c3)]
        · rw [if_neg c3, if_neg (fun h => c3 (hc4iff.mp h))]
  · have hdec : Utf8ToCodepoints [104, 101, 108, 108, 111] =
        [104, 101, 108, 108, 111] := decode_ascii _ (by decide)
    simp [GenerateNgrams, hdec, List.range_succ, CodepointsToUtf8,
      encodeCodepoint]

/-- **C2.** Every n-gram emitted by `GenerateHybridNgrams` (for positive
window sizes, on inputs whose codepoint count keeps the `size_t` guard
arithmetic away from wraparound) is class-uniform: it is the rendering
of a window `w` starting at some position `i`; if `codepoints[i]` is a
CJK ideograph then `w` has exactly `kanji_n` codepoints, all CJK; else
`w` has exactly `ascii_n` codepoints, none CJK.  No emitted window mixes
the two classes. -/
theorem hybrid_class_uniform (text : List Nat) (a k : Int) (ha : 0 < a)
    (hk : 0 < k)
    (hla : (Utf8ToCodepoints text).length + a.toNat < 2 ^ 64)
    (hlk : (Utf8ToCodepoints text).length + k.toNat < 2 ^ 64) :
    ∀ g ∈ GenerateHybridNgrams text a k,
      ∃ i w, i < (Utf8ToCodepoints text).length ∧
        w = ((Utf8ToCodepoints text).drop i).take
          (if IsCJKIdeograph ((Utf8ToCodepoints text).getD i 0) = true
           then k.toNat else a.toNat) ∧
        g = CodepointsToUtf8 w ∧
        ((w.length = k.toNat ∧ ∀ c ∈ w, IsCJKIdeograph c = true) ∨
         (w.length = a.toNat ∧ ∀ c ∈ w, ¬ IsCJKIdeograph c = true)) := by
  intro g hg
  simp only [GenerateHybridNgrams] at hg
  by_cases hemp : Utf8ToCodepoints text = []
  · rw [if_pos hemp] at hg
    simp at hg
  · rw [if_neg hemp] at hg
    simp only [List.mem_flatMap, List.mem_range] at hg
    obtain ⟨i, hi, hmem⟩ := hg
    have htk : toUSize k = k.toNat := by unfold toUSize; omega
    have hta : toUSize a = a.toNat := by unfold toUSize; omega
    by_cases hcjk : IsCJKIdeograph ((Utf8ToCodepoints text).getD i 0) = true
    · rw [if_pos hcjk, htk, Nat.mod_eq_of_lt (by omega)] at hmem
      by_cases hguard : i + k.toNat ≤ (Utf8ToCodepoints text).length
      · rw [if_pos hguard] at hmem
        by_cases hall :
            (((Utf8ToCodepoints text).drop i).take k.toNat).all
              (fun c => IsCJKIdeograph c) = true
        · rw [if_pos hall] at hmem
          simp only [List.mem_singleton] at hmem
          refine ⟨i, ((Utf8ToCodepoints text).drop i).take k.toNat, hi,
            by rw [if_pos hcjk], hmem, Or.inl ⟨?_, ?_⟩⟩
          · simp only [List.length_take, List.length_drop]
            omega
          · intro c hc
            exact List.all_eq_true.mp hall c hc
        · rw [if_neg hall] at hmem
          simp at hmem
      · rw [if_neg hguard] at hmem
        simp at hmem
    · rw [if_neg hcjk, hta, Nat.mod_eq_of_lt (by omega)] at hmem
      by_cases hguard : i + a.toNat ≤ (Utf8ToCodepoints text).length
      · rw [if_pos hguard] at hmem
        by_cases hall :
            (((Utf8ToCodepoints text).drop i).take a.toNat).all
              (fun c => !IsCJKIdeograph c) = true
        · rw [if_pos hall] at hmem
          simp only [List.mem_singleton] at hmem
          refine ⟨i, ((Utf8ToCodepoints text).drop i).take a.toNat, hi,
            by rw [if_neg hcjk], hmem, Or.inr ⟨?_, ?_⟩⟩
          · simp only [List.length_take, List.length_drop]
            omega
          · intro c hc
            have := List.all_eq_true.mp hall c hc
            simpa using this
        · rw [if_neg hall] at hmem
          simp at hmem
      · rw [if_neg hguard] at hmem
        simp at hmem

/-- Witness for `hybrid_class_uniform` at text `"A"`, sizes 1/1. -/
theorem hybrid_class_uniform_witness :
    (0:Int) < 1 ∧ (Utf8ToCodepoints [65]).length + (1:Int).toNat < 2 ^ 64 ∧
      ∀ g ∈ GenerateHybridNgrams [65] 1 1,
        ∃ i w, i < (Utf8ToCodepoints [65]).length ∧
          w = ((Utf8ToCodepoints [65]).drop i).take
            (if IsCJKIdeograph ((Utf8ToCodepoints [65]).getD i 0) = true
             then (1:Int).toNat else (1:Int).toNat) ∧
          g = CodepointsToUtf8 w ∧
          ((w.length = (1:Int).toNat ∧ ∀ c ∈ w, IsCJKIdeograph c = true) ∨
           (w.length = (1:Int).toNat ∧ ∀ c ∈ w, ¬ IsCJKIdeograph c = true)) := by
  have hdec : Utf8ToCodepoints [65] = [65] := decode_ascii _ (by decide)
  refine ⟨by decide, by rw [hdec]; decide, ?_⟩
  exact hybrid_class_uniform [65] 1 1 (by decide) (by decide)
    (by rw [hdec]; decide) (by rw [hdec]; decide)

/-- **C4, counterexample.** `GenerateHybridNgrams "ab" 0 1` is not the
empty sequence even though `ascii_n = 0` is non-positive: both positions
emit the empty string. -/
theorem hybrid_nonpositive_counterexample :
    GenerateHybridNgrams [97, 98] 0 1 = [[], []] ∧
      GenerateHybridNgrams [97, 98] 0 1 ≠ [] := by
  have hdec : Utf8ToCodepoints [97, 98] = [97, 98] := decode_ascii _ (by decide)
  have h : GenerateHybridNgrams [97, 98] 0 1 = [[], []] := by
    simp only [GenerateHybridNgrams, hdec]
    rw [if_neg (by simp)]
    norm_num [List.range_succ, toUSize, IsCJKIdeograph, CodepointsToUtf8]
  exact ⟨h, by rw [h]; simp⟩

/-- **C4, amended.** `GenerateHybridNgrams` returns the empty sequence
whenever the text is empty (or decodes to no codepoints), but a
non-positive window size does not force an empty result: it yields
empty-string n-grams at every in-bounds position, e.g.
`GenerateHybridNgrams "ab" 0 1 = ["", ""]`. -/
theorem hybrid_degenerate_amended :
    (∀ a k : Int, GenerateHybridNgrams [] a k = []) ∧
      (∀ a k : Int, ∀ text : List Nat, Utf8ToCodepoints text = [] →
        GenerateHybridNgrams text a k = []) ∧
      GenerateHybridNgrams [97, 98] 0 1 = [[], []] := by
  refine ⟨fun a k => ?_, fun a k text h => ?_, ?_⟩
  · simp [GenerateHybridNgrams, Utf8ToCodepoints]
  · simp [GenerateHybridNgrams, h]
  · exact hybrid_nonpositive_counterexample.1

/-- Witness for `hybrid_degenerate_amended`: its hypothesis-bearing
conjunct instantiated at the empty text. -/
theorem hybrid_degenerate_amended_witness :
    Utf8ToCodepoints [] = [] ∧ GenerateHybridNgrams [] 2 1 = [] :=
  ⟨by simp [Utf8ToCodepoints], hybrid_degenerate_amended.2.1 2 1 []
    (by simp [Utf8ToCodepoints])⟩

/-! ### ExpressionTokenizer — `src/search_expression.cpp` lines 23-200

The C++ tokenizer walks an immutable input string with a cursor `pos_`.
We model the cursor state as the remaining byte suffix together with the
byte immediately before it (`prev`, `none` at position 0): the only
backward reference the code makes is `input_[pos_ - 1]` in the OR
whole-word test. -/

inductive TokenType where
  | kTerm
  | kQuotedTerm
  | kPlus
  | kMinus
  | kOr
  | kLParen
  | kRParen
  | kEnd
deriving DecidableEq, Repr

structure Token where
  type : TokenType
  value : List Nat := []
deriving DecidableEq, Repr

/-- `std::isspace` in the default C locale (the program never calls
`setlocale`): space, \t, \n, \v, \f, \r. -/
def isSpaceByte (b : Nat) : Bool := decide (b = 32 ∨ (9 ≤ b ∧ b ≤ 13))

/-- `std::isalnum` in the default C locale: 0-9, A-Z, a-z. -/
def isAlnumByte (b : Nat) : Bool :=
  decide ((48 ≤ b ∧ b ≤ 57) ∨ (65 ≤ b ∧ b ≤ 90) ∨ (97 ≤ b ∧ b ≤ 122))

/-- `IsFullWidthSpace(str, pos)` (search_expression.cpp:31-39): true iff
at least three bytes remain (`pos + 2 >= str.size()` returns false) and
they are `0xE3 0x80 0x80` (U+3000). -/
def startsWithFWS (s : List Nat) : Bool :=
  match s with
  | b0 :: b1 :: b2 :: _ => b0 == 0xE3 && b1 == 0x80 && b2 == 0x80
  | _ => false

/-- `Tokenizer::SkipWhitespace` (search_expression.cpp:136-150): skip
full-width spaces (3 bytes) and ASCII whitespace (1 byte). -/
def skipWhitespace : (s : List Nat) → Option Nat → List Nat × Option Nat
  | [], prev => ([], prev)
  | b :: rest, prev =>
    if startsWithFWS (b :: rest) then skipWhitespace (rest.drop 2) (some 0x80)
    else if isSpaceByte b then skipWhitespace rest (some b)
    else (b :: rest, prev)
termination_by s => s.length
decreasing_by all_goals (simp only [List.length_drop, List.length_cons]; omega)

/-- `Tokenizer::ReadTerm` (search_expression.cpp:152-169): read bytes
until a full-width space, ASCII whitespace, or one of `+ - ( ) "`.
Returns (term, remaining suffix, new prev byte). -/
def readTerm : (s : List Nat) → Option Nat → List Nat × List Nat × Option Nat
  | [], prev => ([], [], prev)
  | b :: rest, prev =>
    if startsWithFWS (b :: rest) then ([], b :: rest, prev)
    else if isSpaceByte b ∨ b = 43 ∨ b = 45 ∨ b = 40 ∨ b = 41 ∨ b = 34 then
      ([], b :: rest, prev)
    else
      let r := readTerm rest (some b)
      (b :: r.1, r.2.1, r.2.2)

/-- The loop of `Tokenizer::ReadQuotedString` (search_expression.cpp:
177-195), entered after the opening quote: a `"` closes the string; a
`\` followed by at least one byte (`pos_ + 1 < input_.size()`) copies
the next byte verbatim; anything else is copied; end of input returns
what was captured (unclosed quote). -/
def readQuotedLoop : (s : List Nat) → Option Nat → List Nat × List Nat × Option Nat
  | [], prev => ([], [], prev)
  | b :: rest, _ =>
    if b = 34 then ([], rest, some 34)
    else if b = 92 ∧ rest ≠ [] then
      let c := rest.getD 0 0
      let r := readQuotedLoop (rest.drop 1) (some c)
      (c :: r.1, r.2.1, r.2.2)
    else
      let r := readQuotedLoop rest (some b)
      (b :: r.1, r.2.1, r.2.2)
termination_by s => s.length
decreasing_by all_goals (simp only [List.length_drop, List.length_cons]; omega)

/-- The OR whole-word test of `Tokenizer::Next` (search_expression.cpp:
109-125): the next two bytes are `"OR"` (`pos_ + 2 <= input_.size()`),
the byte before (if any: `pos_ > 0`) is not alphanumeric, and the byte
after (if any: `pos_ + 2 < input_.size()`) is not alphanumeric. -/
def orTokenCheck (s : List Nat) (prev : Option Nat) : Bool :=
  match s with
  | 79 :: 82 :: rest2 =>
    (match prev with | some pb => !isAlnumByte pb | none => true) &&
    (match rest2 with | c :: _ => !isAlnumByte c | [] => true)
  | _ => false

/-- `Tokenizer::Next` (search_expression.cpp:75-129): skip whitespace;
end of input → `kEnd`; `"` → quoted term; `+ - ( )` → one-byte tokens;
whole-word `OR` → `kOr` (with value "OR"); otherwise a bare term. -/
def nextToken (s : List Nat) (prev : Option Nat) : Token × List Nat × Option Nat :=
  match skipWhitespace s prev with
  | ([], p1) => (⟨.kEnd, []⟩, [], p1)
  | (b :: rest, p1) =>
    if b = 34 then
      let r := readQuotedLoop rest (some 34)
      (⟨.kQuotedTerm, r.1⟩, r.2.1, r.2.2)
    else if b = 43 then (⟨.kPlus, []⟩, rest, some 43)
    else if b = 45 then (⟨.kMinus, []⟩, rest, some 45)
    else if b = 40 then (⟨.kLParen, []⟩, rest, some 40)
    else if b = 41 then (⟨.kRParen, []⟩, rest, some 41)
    else if orTokenCheck (b :: rest) p1 then (⟨.kOr, [79, 82]⟩, rest.drop 1, some 82)
    else
      let r := readTerm (b :: rest) p1
      (⟨.kTerm, r.1⟩, r.2.1, r.2.2)

theorem skipWhitespace_length (s : List Nat) (p : Option Nat) :
    (skipWhitespace s p).1.length ≤ s.length := by
  induction s, p using skipWhitespace.induct with
  | case1 p => simp [skipWhitespace]
  | case2 b rest p h ih =>
    rw [skipWhitespace, if_pos h]
    simp only [List.length_drop] at ih
    simp only [List.length_cons]
    omega
  | case3 b rest p h1 h2 ih =>
    rw [skipWhitespace, if_neg h1, if_pos h2]
    simp only [List.length_cons]
    omega
  | case4 b rest p h1 h2 =>
    rw [skipWhitespace, if_neg h1, if_neg h2]

theorem skipWhitespace_spec (s : List Nat) (p : Option Nat) :
    startsWithFWS (skipWhitespace s p).1 = false ∧
      ∀ b rest, (skipWhitespace s p).1 = b :: rest → isSpaceByte b = false := by
  induction s, p using skipWhitespace.induct with
  | case1 p => simp [skipWhitespace, startsWithFWS]
  | case2 b rest p h ih => rw [skipWhitespace, if_pos h]; exact ih
  | case3 b rest p h1 h2 ih => rw [skipWhitespace, if_neg h1, if_pos h2]; exact ih
  | case4 b rest p h1 h2 =>
    rw [skipWhitespace, if_neg h1, if_neg h2]
    refine ⟨by simpa using h1, fun b' rest' heq => ?_⟩
    cases heq
    simpa using h2

theorem readTerm_length (s : List Nat) (p : Option Nat) :
    (readTerm s p).2.1.length ≤ s.length := by
  induction s generalizing p with
  | nil => simp [readTerm]
  | cons b rest ih =>
    rw [readTerm]
    split_ifs with h1 h2
    · simp
    · simp
    · simpa using Nat.le_succ_of_le (ih (some b))

theorem readQuotedLoop_length (s : List Nat) (p : Option Nat) :
    (readQuotedLoop s p).2.1.length ≤ s.length := by
  induction s, p using readQuotedLoop.induct with
  | case1 p => simp [readQuotedLoop]
  | case2 rest p =>
    rw [readQuotedLoop, if_pos rfl]
    simp
  | case3 b rest p h1 h2 c ih =>
    rw [readQuotedLoop, if_neg h1, if_pos h2]
    rw [show c = rest.getD 0 0 from rfl] at ih
    simp only [List.length_cons, List.length_drop] at ih ⊢
    omega
  | case4 b rest p h1 h2 ih =>
    rw [readQuotedLoop, if_neg h1, if_neg h2]
    simpa using Nat.le_succ_of_le ih

/-- If `Next()` does not return `kEnd` it consumed at least one byte. -/
theorem nextToken_progress (s : List Nat) (p : Option Nat)
    (hne : (nextToken s p).1.type ≠ TokenType.kEnd) :
    (nextToken s p).2.1.length < s.length := by
  have hsw := skipWhitespace_length s p
  have hspec := skipWhitespace_spec s p
  unfold nextToken at hne ⊢
  rcases h : skipWhitespace s p with ⟨s1, p1⟩
  simp only [h] at hsw hspec hne ⊢
  cases s1 with
  | nil => exact absurd rfl hne
  | cons b rest =>
    simp only [List.length_cons] at hsw
    dsimp only at hne ⊢
    split_ifs with h34 h43 h45 h40 h41 hor
    · have hq := readQuotedLoop_length rest (some 34)
      dsimp only
      omega
    · dsimp only; omega
    · dsimp only; omega
    · dsimp only; omega
    · dsimp only; omega
    · dsimp only
      simp only [List.length_drop]
      omega
    · have hterm : (readTerm (b :: rest) p1).2.1.length ≤ rest.length := by
        rw [readTerm, if_neg (by simp [hspec.1]), if_neg (by
          have hsp := hspec.2 b rest rfl
          simp [hsp, h34, h43, h45, h40, h41])]
        dsimp only
        exact readTerm_length rest (some b)
      dsimp only
      omega

/-- The token stream of the whole input: repeated `Next()` until `kEnd`
(the parser construction plus its `Advance()` calls read exactly this
sequence; `SetPosition` only ever restores a previously saved cursor). -/
def tokenize (s : List Nat) (prev : Option Nat) : List Token :=
  let r := nextToken s prev
  if h : r.1.type = TokenType.kEnd then [] else r.1 :: tokenize r.2.1 r.2.2
termination_by s.length
decreasing_by exact nextToken_progress s prev h

/-! ### ExpressionParser and QueryStringEmitter —
`src/search_expression.cpp` lines 205-459

The parser state (tokenizer cursor + `current_` token) is modelled as
the list of tokens still to be consumed, `current_` being its head
(`kEnd` corresponding to the empty list); the `Parser` constructor's
initial `Advance()` plus every later `Advance()` walk exactly the
`tokenize` stream, and `LooksLikeOrExpression`'s save/restore of the
cursor is one-token lookahead at the head of the remaining list. -/

structure SearchExpression where
  required_terms : List (List Nat) := []
  excluded_terms : List (List Nat) := []
  optional_terms : List (List Nat) := []
  raw_expression : List Nat := []
deriving DecidableEq, Repr

/-- `mygram::utils::Error` (utils/error.h), reduced to the fields this
parser produces: the numeric `ErrorCode` and the message. -/
structure Error where
  code : Nat
  message : String
deriving DecidableEq, Repr

/-- `ErrorCode::kQuerySyntaxError` (utils/error.h). -/
def kQuerySyntaxError : Nat := 3000

/-- `" OR "` -/
def strSpOrSp : List Nat := [32, 79, 82, 32]
/-- `" AND "` -/
def strAnd : List Nat := [32, 65, 78, 68, 32]
/-- `"NOT "` -/
def strNot : List Nat := [78, 79, 84, 32]
/-- `'"' + v + '"'` -/
def quoteWrap (v : List Nat) : List Nat := 34 :: (v ++ [34])

/-- One iteration body of `Parser::CaptureParenExpression`'s `do`-loop
(search_expression.cpp:356-375): what is appended to the stream and how
the depth changes, per token type. -/
def cpStep (t : Token) (depth : Int) (acc : List Nat) : List Nat × Int :=
  match t.type with
  | .kLParen => (acc ++ [40], depth + 1)
  | .kRParen => (acc ++ [41], depth - 1)
  | .kTerm => (acc ++ t.value, depth)
  | .kQuotedTerm => (acc ++ quoteWrap t.value, depth)
  | .kOr => (acc ++ strSpOrSp, depth)
  | .kPlus => (acc ++ [43], depth)
  | .kMinus => (acc ++ [45], depth)
  | .kEnd => (acc, depth)

/-- The `do { ... } while (depth > 0)` of `CaptureParenExpression`
(search_expression.cpp:352-383).  Reaching `kEnd` (the empty list) with
the group still open returns `""` (unbalanced).  When the depth returns
to 0 the trailing `Advance()` skips past the closing paren, i.e. the
rest of the list after it is returned.  (A literal `kEnd` token never
occurs inside a `tokenize` stream; that constructor's row is dead.) -/
def captureParenLoop : (toks : List Token) → Int → List Nat → List Nat × List Token
  | [], _, _ => ([], [])
  | t :: rest, depth, acc =>
    if t.type = .kEnd then ([], rest)
    else
      let s := cpStep t depth acc
      if 0 < s.2 then captureParenLoop rest s.2 s.1
      else (s.1, rest)

/-- `Parser::CaptureParenExpression` (search_expression.cpp:347-384):
returns `""` unchanged when the current token is not `(`. -/
def captureParen (toks : List Token) : List Nat × List Token :=
  match toks with
  | t :: rest =>
    if t.type = .kLParen then captureParenLoop (t :: rest) 0 [] else ([], t :: rest)
  | [] => ([], [])

theorem captureParenLoop_length (toks : List Token) (d : Int) (a : List Nat) :
    (captureParenLoop toks d a).2.length ≤ toks.length - 1 := by
  induction toks generalizing d a with
  | nil => simp [captureParenLoop]
  | cons t rest ih =>
    rw [captureParenLoop]
    dsimp only
    split_ifs with h1 h2
    · simp
    · have := ih (cpStep t d a).2 (cpStep t d a).1
      simp only [List.length_cons]
      omega
    · simp

theorem captureParen_length (toks : List Token) :
    (captureParen toks).2.length ≤ toks.length := by
  match toks with
  | [] => simp [captureParen]
  | t :: rest =>
    rw [captureParen]
    split_ifs with h1
    · have := captureParenLoop_length (t :: rest) 0 []
      simp only [List.length_cons] at this ⊢
      omega
    · simp

theorem captureParen_length_lparen (t : Token) (rest : List Token)
    (h : t.type = TokenType.kLParen) :
    (captureParen (t :: rest)).2.length ≤ rest.length := by
  rw [captureParen, if_pos h]
  have := captureParenLoop_length (t :: rest) 0 []
  simp only [List.length_cons] at this
  omega

/-- The `while (current_.type == kOr)` chain loop of
`Parser::CaptureOrExpression` (search_expression.cpp:324-342): append
`" OR "`, advance, then require a term / quoted term / parenthesized
group as the right-hand operand — anything else abandons the capture and
returns `""` with the cursor left where it is. -/
def captureOrLoop : (toks : List Token) → List Nat → List Nat × List Token
  | [], acc => (acc, [])
  | t :: rest, acc =>
    if t.type = .kOr then
      let acc1 := acc ++ strSpOrSp
      match rest with
      | [] => ([], [])
      | u :: rest2 =>
        if u.type = .kTerm then captureOrLoop rest2 (acc1 ++ u.value)
        else if u.type = .kQuotedTerm then
          captureOrLoop rest2 (acc1 ++ quoteWrap u.value)
        else if hu : u.type = .kLParen then
          let r := captureParen (u :: rest2)
          if r.1 = [] then ([], r.2) else captureOrLoop r.2 (acc1 ++ r.1)
        else ([], u :: rest2)
    else (acc, t :: rest)
termination_by toks => toks.length
decreasing_by
  all_goals simp only [List.length_cons]
  · omega
  · omega
  · have := captureParen_length_lparen u rest2 hu
    omega

/-- `Parser::CaptureOrExpression` (search_expression.cpp:312-345):
capture the first term (re-quoted if it was a quoted term), advance,
then the OR chain. -/
def captureOr (toks : List Token) : List Nat × List Token :=
  match toks with
  | [] => ([], [])
  | t :: rest =>
    captureOrLoop rest (if t.type = .kQuotedTerm then quoteWrap t.value else t.value)

theorem captureOrLoop_length (toks : List Token) (a : List Nat) :
    (captureOrLoop toks a).2.length ≤ toks.length := by
  induction toks, a using captureOrLoop.induct with
  | case1 acc => simp [captureOrLoop]
  | case2 t acc h =>
    rw [captureOrLoop, if_pos h]
    simp
  | case3 t acc h acc1 u rest2 hterm ih =>
    rw [show acc1 = acc ++ strSpOrSp from rfl] at ih
    rw [captureOrLoop, if_pos h]
    dsimp only
    simp only [if_pos hterm, List.length_cons] at ih ⊢
    omega
  | case4 t acc h acc1 u rest2 hn1 hq ih =>
    rw [show acc1 = acc ++ strSpOrSp from rfl] at ih
    rw [captureOrLoop, if_pos h]
    dsimp only
    simp only [if_neg hn1, if_pos hq, List.length_cons] at ih ⊢
    omega
  | case5 t acc h u rest2 hn1 hn2 hlp r hre =>
    rw [show r = captureParen (u :: rest2) from rfl] at hre
    rw [captureOrLoop, if_pos h]
    dsimp only
    simp only [if_neg hn1, if_neg hn2, dif_pos hlp, if_pos hre]
    have := captureParen_length_lparen u rest2 hlp
    simp only [List.length_cons]
    omega
  | case6 t acc h acc1 u rest2 hn1 hn2 hlp r hrne ih =>
    rw [show acc1 = acc ++ strSpOrSp from rfl] at ih
    rw [show r = captureParen (u :: rest2) from rfl] at hrne ih
    rw [captureOrLoop, if_pos h]
    dsimp only
    simp only [if_neg hn1, if_neg hn2, dif_pos hlp, if_neg hrne]
    have := captureParen_length_lparen u rest2 hlp
    simp only [List.length_cons] at ih ⊢
    omega
  | case7 t acc h u rest2 hn1 hn2 hn3 =>
    rw [captureOrLoop, if_pos h]
    dsimp only
    simp only [if_neg hn1, if_neg hn2, dif_neg hn3, List.length_cons]
    omega
  | case8 t rest acc h =>
    rw [captureOrLoop, if_neg h]

theorem captureOr_length (toks : List Token) :
    (captureOr toks).2.length ≤ toks.length - 1 := by
  match toks with
  | [] => simp [captureOr]
  | t :: rest =>
    rw [captureOr]
    have := captureOrLoop_length rest
      (if t.type = TokenType.kQuotedTerm then quoteWrap t.value else t.value)
    simp only [List.length_cons]
    omega

/-- `Parser::ParsePrefixedTerm` (search_expression.cpp:277-294): after a
`+` or `-`, accept a parenthesized group (captured verbatim; empty
capture means unbalanced, i.e. failure), a bare term, or a quoted term
(stored with its quotes); anything else fails with the cursor
untouched. -/
def parsePrefixedTerm (toks : List Token) : Option (List Nat) × List Token :=
  match toks with
  | [] => (none, [])
  | t :: rest =>
    if t.type = .kLParen then
      let r := captureParen (t :: rest)
      if r.1 = [] then (none, r.2) else (some r.1, r.2)
    else if t.type = .kTerm then (some t.value, rest)
    else if t.type = .kQuotedTerm then (some (quoteWrap t.value), rest)
    else (none, t :: rest)

theorem parsePrefixedTerm_length (toks : List Token) :
    (parsePrefixedTerm toks).2.length ≤ toks.length := by
  match toks with
  | [] => simp [parsePrefixedTerm]
  | t :: rest =>
    rw [parsePrefixedTerm]
    dsimp only
    have := captureParen_length (t :: rest)
    split_ifs <;> simp_all <;> omega

/-- `Parser::LooksLikeOrExpression` (search_expression.cpp:296-310):
save the cursor and current token, `Advance()`, test whether the next
token is `kOr`, restore.  In the token-list model the saved/restored
state is the unchanged list, and the lookahead is its head. -/
def looksLikeOrExpression (rest : List Token) : Bool :=
  match rest with
  | u :: _ => u.type == TokenType.kOr
  | [] => false

/-- `expr.raw_expression += " "` (only when non-empty) followed by
`expr.raw_expression += captured` (search_expression.cpp:237-240,
245-248). -/
def appendRaw (raw add : List Nat) : List Nat :=
  (if raw = [] then raw else raw ++ [32]) ++ add

/-- The `while (current_.type != kEnd)` loop of `Parser::Parse`
(search_expression.cpp:212-269).  (The `kEnd` row mirrors the loop exit;
a literal `kEnd` token never occurs inside a `tokenize` stream.  The
C++ `else { Advance(); }` row is dead — the eight enum values are all
handled.) -/
def parseLoop : (toks : List Token) → SearchExpression → Except Error SearchExpression
  | [], expr => .ok expr
  | t :: rest, expr =>
    if t.type = .kPlus then
      let r := parsePrefixedTerm rest
      match r.1 with
      | some term =>
        parseLoop r.2 { expr with required_terms := expr.required_terms ++ [term] }
      | none => .error ⟨kQuerySyntaxError, "Expected term after '+'"⟩
    else if t.type = .kMinus then
      let r := parsePrefixedTerm rest
      match r.1 with
      | some term =>
        parseLoop r.2 { expr with excluded_terms := expr.excluded_terms ++ [term] }
      | none => .error ⟨kQuerySyntaxError, "Expected term after '-'"⟩
    else if hlp : t.type = .kLParen then
      let r := captureParen (t :: rest)
      if r.1 = [] then .error ⟨kQuerySyntaxError, "Unbalanced parentheses"⟩
      else parseLoop r.2 { expr with raw_expression := appendRaw expr.raw_expression r.1 }
    else if t.type = .kTerm ∨ t.type = .kQuotedTerm then
      if looksLikeOrExpression rest then
        let r := captureOr (t :: rest)
        parseLoop r.2 { expr with raw_expression := appendRaw expr.raw_expression r.1 }
      else
        parseLoop rest { expr with required_terms := expr.required_terms ++
          [if t.type = .kQuotedTerm then quoteWrap t.value else t.value] }
    else if t.type = .kOr then .error ⟨kQuerySyntaxError, "Unexpected 'OR' operator"⟩
    else if t.type = .kRParen then .error ⟨kQuerySyntaxError, "Unexpected ')'"⟩
    else .ok expr
termination_by toks => toks.length
decreasing_by
  all_goals simp only [List.length_cons]
  · have := parsePrefixedTerm_length rest
    omega
  · have := parsePrefixedTerm_length rest
    omega
  · have := captureParen_length_lparen t rest hlp
    omega
  · have := captureOr_length (t :: rest)
    simp only [List.length_cons] at this
    omega
  · omega

/-- `SearchExpression::ToQueryString` (search_expression.cpp:409-442):
required terms joined with `" AND "`; each excluded term appended as
`"NOT " + term`, separated by `" AND "` only when the accumulated stream
is non-empty; a non-empty `raw_expression` wrapped in one pair of
parentheses, again `" AND "`-separated only when the accumulator is
non-empty.  `optional_terms` is never consulted. -/
def ToQueryString (e : SearchExpression) : List Nat :=
  let s1 :=
    match e.required_terms with
    | [] => []
    | t :: ts => ts.foldl (fun acc u => acc ++ strAnd ++ u) t
  let s2 := e.excluded_terms.foldl
    (fun acc u => (if acc = [] then acc else acc ++ strAnd) ++ strNot ++ u) s1
  if e.raw_expression = [] then s2
  else (if s2 = [] then s2 else s2 ++ strAnd) ++ 40 :: (e.raw_expression ++ [41])

/-- `ParseSearchExpression` (search_expression.cpp:444-451): empty input
fails with `kQuerySyntaxError` "Empty search expression" before any
tokenizing; otherwise the parser runs on the token stream. -/
def ParseSearchExpression (expression : List Nat) : Except Error SearchExpression :=
  if expression = [] then
    .error ⟨kQuerySyntaxError, "Empty search expression"⟩
  else parseLoop (tokenize expression none) {}

/-- **C8.** Parsing the zero-length input fails with the
"Empty search expression" query-syntax error (`EmptyExpression` kind);
no `SearchExpression` is produced, and the guard fires before the
tokenizer is even constructed. -/
theorem parse_empty_expression :
    ParseSearchExpression [] =
      .error ⟨kQuerySyntaxError, "Empty search expression"⟩ := by
  simp [ParseSearchExpression]

/-- Tokenization of `"python OR ruby"`. -/
theorem tokenize_python_or_ruby :
    tokenize [112, 121, 116, 104, 111, 110, 32, 79, 82, 32,
      114, 117, 98, 121] none =
      [⟨.kTerm, [112, 121, 116, 104, 111, 110]⟩, ⟨.kOr, [79, 82]⟩,
       ⟨.kTerm, [114, 117, 98, 121]⟩] := by
  simp [tokenize, nextToken, skipWhitespace, readTerm, readQuotedLoop,
    orTokenCheck, startsWithFWS, isSpaceByte, isAlnumByte]

/-- **C5.** `ParseSearchExpression "python OR ruby"` succeeds with
`raw_expression = "python OR ruby"` and empty `required_terms` /
`excluded_terms` (the OR chain is detected by the one-token lookahead at
the head of the unconsumed stream, which `LooksLikeOrExpression` leaves
untouched), and `ToQueryString` yields `"(python OR ruby)"`. -/
theorem parse_python_or_ruby :
    ParseSearchExpression [112, 121, 116, 104, 111, 110, 32, 79, 82, 32,
        114, 117, 98, 121] =
      .ok { required_terms := [], excluded_terms := [], optional_terms := [],
            raw_expression := [112, 121, 116, 104, 111, 110, 32, 79, 82, 32,
              114, 117, 98, 121] } ∧
    ToQueryString { required_terms := [], excluded_terms := [],
                    optional_terms := [],
                    raw_expression := [112, 121, 116, 104, 111, 110, 32,
                      79, 82, 32, 114, 117, 98, 121] } =
      [40, 112, 121, 116, 104, 111, 110, 32, 79, 82, 32,
       114, 117, 98, 121, 41] := by
  constructor
  · rw [ParseSearchExpression, if_neg (by simp), tokenize_python_or_ruby]
    simp [parseLoop, parsePrefixedTerm, looksLikeOrExpression, captureOr,
      captureOrLoop, captureParen, captureParenLoop, cpStep, appendRaw,
      strSpOrSp, quoteWrap]
  · simp [ToQueryString, strAnd, strNot]

/-- **C6.** `ParseSearchExpression "+golang tutorial"` succeeds with
`required_terms = ["golang", "tutorial"]`: the bare term is appended to
`required_terms` exactly like the `+`-prefixed one, and
`excluded_terms` and `raw_expression` stay empty. -/
theorem parse_plus_golang_tutorial :
    ParseSearchExpression [43, 103, 111, 108, 97, 110, 103, 32,
        116, 117, 116, 111, 114, 105, 97, 108] =
      .ok { required_terms := [[103, 111, 108, 97, 110, 103],
              [116, 117, 116, 111, 114, 105, 97, 108]],
            excluded_terms := [], optional_terms := [],
            raw_expression := [] } := by
  have htok : tokenize [43, 103, 111, 108, 97, 110, 103, 32,
      116, 117, 116, 111, 114, 105, 97, 108] none =
      [⟨.kPlus, []⟩, ⟨.kTerm, [103, 111, 108, 97, 110, 103]⟩,
       ⟨.kTerm, [116, 117, 116, 111, 114, 105, 97, 108]⟩] := by
    simp [tokenize, nextToken, skipWhitespace, readTerm, readQuotedLoop,
      orTokenCheck, startsWithFWS, isSpaceByte, isAlnumByte]
  rw [ParseSearchExpression, if_neg (by simp), htok]
  simp [parseLoop, parsePrefixedTerm, looksLikeOrExpression, captureOr,
    captureOrLoop, captureParen, captureParenLoop, cpStep, appendRaw,
    strSpOrSp, quoteWrap]

/-- **C10.** `ParseSearchExpression "a OR"`: the dangling OR chain is
not an error.  `CaptureOrExpression` hits end-of-input after the `OR`,
returns the empty string, the term `"a"` and the chain are discarded,
and parsing succeeds with an entirely empty `SearchExpression`, whose
`ToQueryString` is the empty string. -/
theorem parse_dangling_or :
    ParseSearchExpression [97, 32, 79, 82] =
      .ok { required_terms := [], excluded_terms := [], optional_terms := [],
            raw_expression := [] } ∧
    ToQueryString { required_terms := [], excluded_terms := [],
                    optional_terms := [], raw_expression := [] } = [] := by
  constructor
  · have htok : tokenize [97, 32, 79, 82] none =
        [⟨.kTerm, [97]⟩, ⟨.kOr, [79, 82]⟩] := by
      simp [tokenize, nextToken, skipWhitespace, readTerm, readQuotedLoop,
        orTokenCheck, startsWithFWS, isSpaceByte, isAlnumByte]
    rw [ParseSearchExpression, if_neg (by simp), htok]
    simp [parseLoop, parsePrefixedTerm, looksLikeOrExpression, captureOr,
      captureOrLoop, captureParen, captureParenLoop, cpStep, appendRaw,
      strSpOrSp, quoteWrap]
  · simp [ToQueryString]

/-- **C3, counterexample.** For `required_terms = []`,
`excluded_terms = ["old"]`, `raw_expression = ""`, the emitted query
string is exactly `"NOT old"`: no `" AND "` separator precedes
`"NOT old"` (indeed `" AND "` occurs nowhere in the output), because the
emitter only writes the separator when the accumulator is non-empty. -/
theorem toQueryString_excluded_only_counterexample :
    ToQueryString { required_terms := [],
                    excluded_terms := [[111, 108, 100]],
                    optional_terms := [], raw_expression := [] } =
      [78, 79, 84, 32, 111, 108, 100] ∧
    (∀ pre post : List Nat,
      pre ++ strAnd ++ post ≠ [78, 79, 84, 32, 111, 108, 100]) := by
  constructor
  · simp [ToQueryString, strNot, strAnd]
  · intro pre post heq
    have hlen := congrArg List.length heq
    simp [strAnd] at hlen
    rcases pre with _ | ⟨a, _ | ⟨b, _ | ⟨c, pre3⟩⟩⟩
    · simp [strAnd] at heq
    · simp [strAnd] at heq
    · simp [strAnd] at heq
    · simp at hlen
      omega

/-- Helper: the excluded-terms fold with a non-empty accumulator always
separates with `" AND "`. -/
theorem excluded_foldl_nonempty (ts : List (List Nat)) (acc : List Nat)
    (hne : acc ≠ []) :
    ts.foldl
        (fun acc u => (if acc = [] then acc else acc ++ strAnd) ++ strNot ++ u)
        acc =
      acc ++ ts.flatMap (fun u => strAnd ++ strNot ++ u) := by
  induction ts generalizing acc with
  | nil => simp
  | cons u us ih =>
    rw [List.foldl_cons, if_neg hne,
      ih (acc ++ strAnd ++ strNot ++ u) (by simp [strNot])]
    simp

/-- **C3, amended.** Each excluded term is emitted as `"NOT " + term`,
but the `" AND "` separator is only written when the accumulator is
already non-empty; with no required terms and no raw expression the
first excluded term therefore starts the output, e.g. the output for
`excluded_terms = ["old"]` alone is `"NOT old"`. -/
theorem toQueryString_excluded_amended (t : List Nat) (ts : List (List Nat))
    (opt : List (List Nat)) :
    ToQueryString { required_terms := [], excluded_terms := t :: ts,
                    optional_terms := opt, raw_expression := [] } =
      strNot ++ t ++ ts.flatMap (fun u => strAnd ++ strNot ++ u) := by
  simp only [ToQueryString, List.foldl_cons, eq_self_iff_true, ite_true,
    List.nil_append]
  rw [excluded_foldl_nonempty ts (strNot ++ t) (by simp [strNot])]

end MygramClient
